import Mathlib

/-!
Verification of the smallest-enclosing-circle core of `momepy/shape.py`
(the embedded Nayuki smallest-enclosing-circle library, lines 161-291).

Modelling conventions.
* Coordinates are exact rationals (`ℚ`).  Every finite Python float is a
  rational number, and the source performs only field operations and
  comparisons on coordinates, so the rational model is an exact shallow
  embedding of the source arithmetic.
* A source circle is a triple `(center x, center y, radius)` whose radius is
  always produced by `math.hypot`, i.e. it is the square root of a rational.
  We therefore store the square of the radius in the field `rsq`; the radius
  itself is recovered as `Real.sqrt rsq` (definition `Circle.radius`).  Every
  comparison the source performs on radii and distances is between two
  non-negative square roots, hence is equivalent to the comparison of the
  squares; the bridging lemmas between the squared comparisons used in the
  executable definitions and the real-valued distance statements are proved
  below.
* `random.shuffle` in `make_circle` is modelled by letting the embedded
  `make_circle` consume the already-shuffled order; theorems about the whole
  algorithm quantify over input orderings (permutations) where relevant.
  The `float(x)` conversion is the identity in the rational model.
-/

namespace Momepy

/-- A point, a pair of coordinates, as in the source data convention. -/
abbrev Point := ℚ × ℚ

/-- A circle `(center x, center y, radius)`; `rsq` stores the square of the
radius (see the module docstring for why this is exact). -/
structure Circle where
  x : ℚ
  y : ℚ
  rsq : ℚ
deriving DecidableEq

/-- The square of `math.hypot x y`, i.e. `x*x + y*y`. -/
def hypotSq (x y : ℚ) : ℚ := x * x + y * y

/-- The value of `math.hypot x y` itself, as a real number. -/
noncomputable def hypot (x y : ℚ) : ℝ := Real.sqrt (hypotSq x y)

/-- The radius of a circle, recovered from its stored square. -/
noncomputable def Circle.radius (c : Circle) : ℝ := Real.sqrt c.rsq

/-- The square of `_MULTIPLICATIVE_EPSILON = 1 + 1e-14`. -/
def _MULTIPLICATIVE_EPSILON_SQ : ℚ := (1 + 1 / 10 ^ 14) * (1 + 1 / 10 ^ 14)

/-- Source `is_in_circle(c, p)`: `c is not None and
math.hypot(p[0] - c[0], p[1] - c[1]) <= c[2] * _MULTIPLICATIVE_EPSILON`.
Both sides of the source comparison are non-negative, so it is equivalent to
the comparison of the squares, which is what the executable definition
decides (lemma `is_in_circle_iff_dist` below bridges back to distances). -/
def is_in_circle (c : Option Circle) (p : Point) : Bool :=
  match c with
  | none => false
  | some c => decide (hypotSq (p.1 - c.x) (p.2 - c.y) ≤ c.rsq * _MULTIPLICATIVE_EPSILON_SQ)

/-- Source `make_diameter(p0, p1)`: midpoint center, radius the larger of the two
distances from the center to the endpoints (squared here). -/
def make_diameter (p0 p1 : Point) : Circle :=
  let cx := (p0.1 + p1.1) / 2
  let cy := (p0.2 + p1.2) / 2
  let r0 := hypotSq (cx - p0.1) (cy - p0.2)
  let r1 := hypotSq (cx - p1.1) (cy - p1.2)
  ⟨cx, cy, max r0 r1⟩

/-- Source `_cross_product(x0, y0, x1, y1, x2, y2)`: twice the signed area of the
triangle defined by the three points. -/
def _cross_product (x0 y0 x1 y1 x2 y2 : ℚ) : ℚ :=
  (x1 - x0) * (y2 - y0) - (y1 - y0) * (x2 - x0)

/-- Source `make_circumcircle(p0, p1, p2)`, mirrored here: translate so that
the midpoint of the bounding box is the origin, test the determinant `d` for
zero, otherwise form the circumcenter and take as (squared) radius the
largest of the three (squared) center-to-vertex distances. -/
def make_circumcircle (p0 p1 p2 : Point) : Option Circle :=
  let ax := p0.1
  let ay := p0.2
  let bx := p1.1
  let b_y := p1.2
  let cx := p2.1
  let cy := p2.2
  let ox := (min (min ax bx) cx + max (max ax bx) cx) / 2
  let oy := (min (min ay b_y) cy + max (max ay b_y) cy) / 2
  let ax := ax - ox
  let ay := ay - oy
  let bx := bx - ox
  let b_y := b_y - oy
  let cx := cx - ox
  let cy := cy - oy
  let d := (ax * (b_y - cy) + bx * (cy - ay) + cx * (ay - b_y)) * 2
  if d = 0 then none
  else
    let x := ox + ((ax * ax + ay * ay) * (b_y - cy) + (bx * bx + b_y * b_y) * (cy - ay)
        + (cx * cx + cy * cy) * (ay - b_y)) / d
    let y := oy + ((ax * ax + ay * ay) * (cx - bx) + (bx * bx + b_y * b_y) * (ax - cx)
        + (cx * cx + cy * cy) * (bx - ax)) / d
    let ra := hypotSq (x - p0.1) (y - p0.2)
    let rb := hypotSq (x - p1.1) (y - p1.2)
    let rc := hypotSq (x - p2.1) (y - p2.2)
    some ⟨x, y, max (max ra rb) rc⟩

/-- The determinant `d` tested by `make_circumcircle` (computed, as in the
source, from the translated coordinates). -/
def circumDet (p0 p1 p2 : Point) : ℚ :=
  let ax := p0.1
  let ay := p0.2
  let bx := p1.1
  let b_y := p1.2
  let cx := p2.1
  let cy := p2.2
  let ox := (min (min ax bx) cx + max (max ax bx) cx) / 2
  let oy := (min (min ay b_y) cy + max (max ay b_y) cy) / 2
  let ax := ax - ox
  let ay := ay - oy
  let bx := bx - ox
  let b_y := b_y - oy
  let cx := cx - ox
  let cy := cy - oy
  (ax * (b_y - cy) + bx * (cy - ay) + cx * (ay - b_y)) * 2

/-- The x-coordinate computed by `make_circumcircle` in the non-degenerate
branch (same let-chain as the source). -/
def circumXc (p0 p1 p2 : Point) : ℚ :=
  let ax := p0.1
  let ay := p0.2
  let bx := p1.1
  let b_y := p1.2
  let cx := p2.1
  let cy := p2.2
  let ox := (min (min ax bx) cx + max (max ax bx) cx) / 2
  let oy := (min (min ay b_y) cy + max (max ay b_y) cy) / 2
  let ax := ax - ox
  let ay := ay - oy
  let bx := bx - ox
  let b_y := b_y - oy
  let cx := cx - ox
  let cy := cy - oy
  let d := (ax * (b_y - cy) + bx * (cy - ay) + cx * (ay - b_y)) * 2
  ox + ((ax * ax + ay * ay) * (b_y - cy) + (bx * bx + b_y * b_y) * (cy - ay)
      + (cx * cx + cy * cy) * (ay - b_y)) / d

/-- The y-coordinate computed by `make_circumcircle` in the non-degenerate
branch. -/
def circumYc (p0 p1 p2 : Point) : ℚ :=
  let ax := p0.1
  let ay := p0.2
  let bx := p1.1
  let b_y := p1.2
  let cx := p2.1
  let cy := p2.2
  let ox := (min (min ax bx) cx + max (max ax bx) cx) / 2
  let oy := (min (min ay b_y) cy + max (max ay b_y) cy) / 2
  let ax := ax - ox
  let ay := ay - oy
  let bx := bx - ox
  let b_y := b_y - oy
  let cx := cx - ox
  let cy := cy - oy
  let d := (ax * (b_y - cy) + bx * (cy - ay) + cx * (ay - b_y)) * 2
  oy + ((ax * ax + ay * ay) * (cx - bx) + (bx * bx + b_y * b_y) * (ax - cx)
      + (cx * cx + cy * cy) * (bx - ax)) / d

/-- The squared radius computed by `make_circumcircle` in the non-degenerate
branch: the largest squared distance from the computed center to a vertex. -/
def circumRsqc (p0 p1 p2 : Point) : ℚ :=
  max (max (hypotSq (circumXc p0 p1 p2 - p0.1) (circumYc p0 p1 p2 - p0.2))
      (hypotSq (circumXc p0 p1 p2 - p1.1) (circumYc p0 p1 p2 - p1.2)))
    (hypotSq (circumXc p0 p1 p2 - p2.1) (circumYc p0 p1 p2 - p2.2))

/-- One iteration of the scan loop of `_make_circle_two_points`, updating the
retained left-side and right-side candidate circles for one point `r`. -/
def mctpStep (p q : Point) (circ : Circle) (acc : Option Circle × Option Circle)
    (r : Point) : Option Circle × Option Circle :=
  if is_in_circle (some circ) r then acc
  else
    let cross := _cross_product p.1 p.2 q.1 q.2 r.1 r.2
    match make_circumcircle p q r with
    | none => acc
    | some c =>
      let left := acc.1
      let right := acc.2
      let leftUpd : Bool := decide (cross > 0) &&
        (match left with
         | none => true
         | some l => decide (_cross_product p.1 p.2 q.1 q.2 c.x c.y >
             _cross_product p.1 p.2 q.1 q.2 l.x l.y))
      let rightUpd : Bool := decide (cross < 0) &&
        (match right with
         | none => true
         | some l => decide (_cross_product p.1 p.2 q.1 q.2 c.x c.y <
             _cross_product p.1 p.2 q.1 q.2 l.x l.y))
      if leftUpd then (some c, right)
      else if rightUpd then (left, some c)
      else (left, right)

/-- Source `_make_circle_two_points(points, p, q)`: scan all points, retaining per
side the most extreme candidate circumcircle, then select the result. -/
def _make_circle_two_points (points : List Point) (p q : Point) : Circle :=
  let circ := make_diameter p q
  match points.foldl (mctpStep p q circ) (none, none) with
  | (none, none) => circ
  | (some l, none) => l
  | (none, some r) => r
  | (some l, some r) => if l.rsq ≤ r.rsq then l else r

/-- The scan loop of `_make_circle_one_point`; `seen` is the already-scanned
portion of `points`, so that `seen ++ [q]` is the source slice
`points[: i + 1]` at the iteration handling `q`. -/
def mcopGo (p : Point) : List Point → List Point → Circle → Circle
  | _, [], c => c
  | seen, q :: rest, c =>
    mcopGo p (seen ++ [q]) rest
      (if is_in_circle (some c) q then c
       else if c.rsq = 0 then make_diameter p q
       else _make_circle_two_points (seen ++ [q]) p q)

/-- Source `_make_circle_one_point(points, p)`: start from the degenerate circle at
`p` and scan. -/
def _make_circle_one_point (points : List Point) (p : Point) : Circle :=
  mcopGo p [] points ⟨p.1, p.2, 0⟩

/-- The scan loop of `make_circle`; `seen` is the already-scanned portion,
so `seen ++ [p]` is the source slice `shuffled[: i + 1]`. -/
def mcGo : List Point → List Point → Option Circle → Option Circle
  | _, [], c => c
  | seen, p :: rest, c =>
    mcGo (seen ++ [p]) rest
      (if c.isNone || !is_in_circle c p then some (_make_circle_one_point (seen ++ [p]) p)
       else c)

/-- Source `make_circle(points)` on the already-shuffled order (see module
docstring): progressively add points, recomputing whenever the current point
is not enclosed. -/
def make_circle (points : List Point) : Option Circle := mcGo [] points none

/-!
Checked evaluation.  To express that the core never performs an unguarded
division (claim about failure semantics), we re-run the whole pipeline in an
`Except` monad in which every division checks its divisor; `cdiv` is the only
way to divide.  The theorems below prove the checked pipeline always returns
`Except.ok` of the plain result, i.e. no division by zero is ever attempted
(in particular the division by the determinant `d` in `make_circumcircle` is
reached only under `d ≠ 0`).
-/

/-- Division that fails (instead of defaulting) on a zero divisor. -/
def cdiv (a b : ℚ) : Except Unit ℚ :=
  if b = 0 then Except.error () else Except.ok (a / b)

/-- Checked `make_diameter`. -/
def make_diameterC (p0 p1 : Point) : Except Unit Circle := do
  let cx ← cdiv (p0.1 + p1.1) 2
  let cy ← cdiv (p0.2 + p1.2) 2
  pure ⟨cx, cy, max (hypotSq (cx - p0.1) (cy - p0.2)) (hypotSq (cx - p1.1) (cy - p1.2))⟩

/-- Checked `make_circumcircle`; note that, as in the source, the test
`d = 0` is made before any division by `d` is attempted. -/
def make_circumcircleC (p0 p1 p2 : Point) : Except Unit (Option Circle) := do
  let ox ← cdiv (min (min p0.1 p1.1) p2.1 + max (max p0.1 p1.1) p2.1) 2
  let oy ← cdiv (min (min p0.2 p1.2) p2.2 + max (max p0.2 p1.2) p2.2) 2
  let ax := p0.1 - ox
  let ay := p0.2 - oy
  let bx := p1.1 - ox
  let b_y := p1.2 - oy
  let cx := p2.1 - ox
  let cy := p2.2 - oy
  let d := (ax * (b_y - cy) + bx * (cy - ay) + cx * (ay - b_y)) * 2
  if d = 0 then pure none
  else do
    let xq ← cdiv ((ax * ax + ay * ay) * (b_y - cy) + (bx * bx + b_y * b_y) * (cy - ay)
        + (cx * cx + cy * cy) * (ay - b_y)) d
    let yq ← cdiv ((ax * ax + ay * ay) * (cx - bx) + (bx * bx + b_y * b_y) * (ax - cx)
        + (cx * cx + cy * cy) * (bx - ax)) d
    let x := ox + xq
    let y := oy + yq
    pure (some ⟨x, y, max (max (hypotSq (x - p0.1) (y - p0.2)) (hypotSq (x - p1.1) (y - p1.2)))
      (hypotSq (x - p2.1) (y - p2.2))⟩)

/-- Checked variant of `mctpStep`. -/
def mctpStepC (p q : Point) (circ : Circle) (acc : Option Circle × Option Circle)
    (r : Point) : Except Unit (Option Circle × Option Circle) :=
  if is_in_circle (some circ) r then pure acc
  else do
    let cross := _cross_product p.1 p.2 q.1 q.2 r.1 r.2
    match ← make_circumcircleC p q r with
    | none => pure acc
    | some c =>
      let left := acc.1
      let right := acc.2
      let leftUpd : Bool := decide (cross > 0) &&
        (match left with
         | none => true
         | some l => decide (_cross_product p.1 p.2 q.1 q.2 c.x c.y >
             _cross_product p.1 p.2 q.1 q.2 l.x l.y))
      let rightUpd : Bool := decide (cross < 0) &&
        (match right with
         | none => true
         | some l => decide (_cross_product p.1 p.2 q.1 q.2 c.x c.y <
             _cross_product p.1 p.2 q.1 q.2 l.x l.y))
      if leftUpd then pure (some c, right)
      else if rightUpd then pure (left, some c)
      else pure (left, right)

/-- Checked `_make_circle_two_points`. -/
def _make_circle_two_pointsC (points : List Point) (p q : Point) : Except Unit Circle := do
  let circ ← make_diameterC p q
  let acc ← points.foldlM (mctpStepC p q circ) (none, none)
  match acc with
  | (none, none) => pure circ
  | (some l, none) => pure l
  | (none, some r) => pure r
  | (some l, some r) => pure (if l.rsq ≤ r.rsq then l else r)

/-- Checked scan loop of `_make_circle_one_point`. -/
def mcopGoC (p : Point) : List Point → List Point → Circle → Except Unit Circle
  | _, [], c => pure c
  | seen, q :: rest, c => do
    let c' ←
      if is_in_circle (some c) q then pure c
      else if c.rsq = 0 then make_diameterC p q
      else _make_circle_two_pointsC (seen ++ [q]) p q
    mcopGoC p (seen ++ [q]) rest c'

/-- Checked `_make_circle_one_point`. -/
def _make_circle_one_pointC (points : List Point) (p : Point) : Except Unit Circle :=
  mcopGoC p [] points ⟨p.1, p.2, 0⟩

/-- Checked scan loop of `make_circle`. -/
def mcGoC : List Point → List Point → Option Circle → Except Unit (Option Circle)
  | _, [], c => pure c
  | seen, p :: rest, c => do
    let c' ←
      if c.isNone || !is_in_circle c p then
        Except.map some (_make_circle_one_pointC (seen ++ [p]) p)
      else pure c
    mcGoC (seen ++ [p]) rest c'

/-- Checked `make_circle`. -/
def make_circleC (points : List Point) : Except Unit (Option Circle) :=
  mcGoC [] points none

end Momepy

namespace Momepy

/-! Basic facts about the geometric primitives. -/

theorem hypotSq_nonneg (x y : ℚ) : 0 ≤ hypotSq x y := by
  unfold hypotSq; exact add_nonneg (mul_self_nonneg x) (mul_self_nonneg y)

theorem hypotSq_eq_zero_iff (x y : ℚ) : hypotSq x y = 0 ↔ x = 0 ∧ y = 0 := by
  unfold hypotSq
  constructor
  · intro h
    constructor <;> nlinarith [mul_self_nonneg x, mul_self_nonneg y]
  · rintro ⟨rfl, rfl⟩; ring

theorem one_le_epsSq : (1 : ℚ) ≤ _MULTIPLICATIVE_EPSILON_SQ := by
  unfold _MULTIPLICATIVE_EPSILON_SQ; norm_num

theorem is_in_circle_some (c : Circle) (p : Point) :
    is_in_circle (some c) p = true ↔
      hypotSq (p.1 - c.x) (p.2 - c.y) ≤ c.rsq * _MULTIPLICATIVE_EPSILON_SQ := by
  simp [is_in_circle]

theorem is_in_circle_of_dist_eq_rsq (c : Circle) (p : Point)
    (h : hypotSq (p.1 - c.x) (p.2 - c.y) = c.rsq) :
    is_in_circle (some c) p = true := by
  rw [is_in_circle_some, h]
  have h0 : 0 ≤ c.rsq := h ▸ hypotSq_nonneg _ _
  nlinarith [one_le_epsSq]

theorem make_diameter_comm (p q : Point) : make_diameter p q = make_diameter q p := by
  simp only [make_diameter]
  refine Circle.mk.injEq _ _ _ _ _ _ ▸ ⟨by ring, by ring, ?_⟩
  rw [max_comm]
  congr 2 <;> ring

theorem make_diameter_rsq (p q : Point) :
    (make_diameter p q).rsq = hypotSq ((p.1 - q.1) / 2) ((p.2 - q.2) / 2) := by
  simp only [make_diameter]
  have h1 : (p.1 + q.1) / 2 - p.1 = -((p.1 - q.1) / 2) := by ring
  have h2 : (p.2 + q.2) / 2 - p.2 = -((p.2 - q.2) / 2) := by ring
  have h3 : (p.1 + q.1) / 2 - q.1 = (p.1 - q.1) / 2 := by ring
  have h4 : (p.2 + q.2) / 2 - q.2 = (p.2 - q.2) / 2 := by ring
  rw [h1, h2, h3, h4]
  have h5 : ∀ a b : ℚ, hypotSq (-a) (-b) = hypotSq a b := by
    intro a b; unfold hypotSq; ring
  rw [h5, max_self]

theorem make_diameter_rsq_nonneg (p q : Point) : 0 ≤ (make_diameter p q).rsq := by
  rw [make_diameter_rsq]; exact hypotSq_nonneg _ _

theorem make_diameter_mem_left (p q : Point) :
    is_in_circle (some (make_diameter p q)) p = true := by
  apply is_in_circle_of_dist_eq_rsq
  rw [make_diameter_rsq]
  simp only [make_diameter]
  unfold hypotSq; ring

theorem make_diameter_mem_right (p q : Point) :
    is_in_circle (some (make_diameter p q)) q = true := by
  rw [make_diameter_comm]; exact make_diameter_mem_left q p

/-- C10: the exposed containment test accepts the "no circle" value and
reports non-containment rather than raising, for every point. -/
theorem is_in_circle_none (p : Point) : is_in_circle none p = false := rfl

theorem mcGo_some_ne_none (rest : List Point) :
    ∀ (seen : List Point) (c : Circle), mcGo seen rest (some c) ≠ none := by
  induction rest with
  | nil => intro seen c h; exact Option.noConfusion h
  | cons p rest ih =>
    intro seen c
    simp only [mcGo]
    split
    · exact ih _ _
    · exact ih _ _

theorem le_mul_eps_iff_sqrt (a b : ℚ) (hb : 0 ≤ b) :
    a ≤ b * _MULTIPLICATIVE_EPSILON_SQ ↔
      Real.sqrt (a : ℝ) ≤ Real.sqrt (b : ℝ) * (1 + 1 / 10 ^ 14) := by
  have hb' : (0 : ℝ) ≤ (b : ℝ) := by exact_mod_cast hb
  have he : (0 : ℝ) ≤ 1 + 1 / 10 ^ 14 := by norm_num
  have h1 : Real.sqrt ((b : ℝ) * ((1 + 1 / 10 ^ 14) * (1 + 1 / 10 ^ 14)))
      = Real.sqrt (b : ℝ) * (1 + 1 / 10 ^ 14) := by
    rw [Real.sqrt_mul hb',
      show ((1 : ℝ) + 1 / 10 ^ 14) * (1 + 1 / 10 ^ 14) = (1 + 1 / 10 ^ 14) ^ 2 by ring,
      Real.sqrt_sq he]
  have hcast : ((b * _MULTIPLICATIVE_EPSILON_SQ : ℚ) : ℝ)
      = (b : ℝ) * ((1 + 1 / 10 ^ 14) * (1 + 1 / 10 ^ 14)) := by
    unfold _MULTIPLICATIVE_EPSILON_SQ
    push_cast
    ring
  rw [← h1, ← hcast, Real.sqrt_le_sqrt_iff (by rw [hcast]; positivity)]
  exact ⟨fun h => by exact_mod_cast h, fun h => by exact_mod_cast h⟩

/-- C5: `is_in_circle` on an actual circle of non-negative radius holds if
and only if the Euclidean distance from the point to the circle's center is
at most `radius * (1 + ε)` with the fixed tolerance `ε = 1e-14`. -/
theorem is_in_circle_iff_dist (c : Circle) (p : Point) (h : 0 ≤ c.rsq) :
    is_in_circle (some c) p = true ↔
      hypot (p.1 - c.x) (p.2 - c.y) ≤ c.radius * (1 + 1 / 10 ^ 14) := by
  rw [is_in_circle_some, hypot, Circle.radius]
  exact le_mul_eps_iff_sqrt _ _ h

/-- Closed instance of `is_in_circle_iff_dist` at a concrete circle and
point, with the hypothesis discharged by computation. -/
theorem is_in_circle_iff_dist_witness :
    (0 : ℚ) ≤ (Circle.mk 0 0 1).rsq ∧
      (is_in_circle (some (Circle.mk 0 0 1)) (1, 0) = true ↔
        hypot (1 - 0) (0 - 0) ≤ (Circle.mk 0 0 1).radius * (1 + 1 / 10 ^ 14)) :=
  ⟨by norm_num, is_in_circle_iff_dist (Circle.mk 0 0 1) (1, 0) (by norm_num)⟩

theorem make_circumcircle_rsq_nonneg (p0 p1 p2 : Point) (c : Circle)
    (h : make_circumcircle p0 p1 p2 = some c) : 0 ≤ c.rsq := by
  simp only [make_circumcircle] at h
  split at h
  · exact Option.noConfusion h
  · injection h with h
    subst h
    exact le_trans (hypotSq_nonneg _ _) (le_max_right _ _)

theorem mctpStep_rsq_nonneg (p q : Point) (circ : Circle)
    (acc : Option Circle × Option Circle) (r : Point)
    (h1 : ∀ l, acc.1 = some l → 0 ≤ l.rsq) (h2 : ∀ rr, acc.2 = some rr → 0 ≤ rr.rsq) :
    (∀ l, (mctpStep p q circ acc r).1 = some l → 0 ≤ l.rsq) ∧
    (∀ rr, (mctpStep p q circ acc r).2 = some rr → 0 ≤ rr.rsq) := by
  unfold mctpStep
  split
  · exact ⟨h1, h2⟩
  · rcases hm : make_circumcircle p q r with _ | c
    · simp only [hm]
      exact ⟨h1, h2⟩
    · simp only [hm]
      have hc := make_circumcircle_rsq_nonneg p q r c hm
      split
      · exact ⟨fun l hl => by injection hl with h; exact h ▸ hc, h2⟩
      · split
        · exact ⟨h1, fun rr hr => by injection hr with h; exact h ▸ hc⟩
        · exact ⟨h1, h2⟩

theorem mctpAcc_rsq_nonneg (p q : Point) (circ : Circle) (pts : List Point) :
    ∀ acc : Option Circle × Option Circle,
      (∀ l, acc.1 = some l → 0 ≤ l.rsq) → (∀ rr, acc.2 = some rr → 0 ≤ rr.rsq) →
      (∀ l, (pts.foldl (mctpStep p q circ) acc).1 = some l → 0 ≤ l.rsq) ∧
      (∀ rr, (pts.foldl (mctpStep p q circ) acc).2 = some rr → 0 ≤ rr.rsq) := by
  induction pts with
  | nil => intro acc h1 h2; simpa using ⟨h1, h2⟩
  | cons r rest ih =>
    intro acc h1 h2
    rw [List.foldl_cons]
    obtain ⟨g1, g2⟩ := mctpStep_rsq_nonneg p q circ acc r h1 h2
    exact ih _ g1 g2

theorem _make_circle_two_points_rsq_nonneg (points : List Point) (p q : Point) :
    0 ≤ (_make_circle_two_points points p q).rsq := by
  obtain ⟨h1, h2⟩ := mctpAcc_rsq_nonneg p q (make_diameter p q) points (none, none)
    (by simp) (by simp)
  unfold _make_circle_two_points
  rcases hacc : points.foldl (mctpStep p q (make_diameter p q)) (none, none) with ⟨_ | l, _ | r⟩ <;>
      simp only [hacc]
  · exact make_diameter_rsq_nonneg p q
  · exact h2 r (by rw [hacc])
  · exact h1 l (by rw [hacc])
  · have hl : 0 ≤ l.rsq := h1 l (by rw [hacc])
    have hr : 0 ≤ r.rsq := h2 r (by rw [hacc])
    split <;> assumption

theorem mcopGo_rsq_nonneg (p : Point) (rest : List Point) :
    ∀ (seen : List Point) (c : Circle), 0 ≤ c.rsq → 0 ≤ (mcopGo p seen rest c).rsq := by
  induction rest with
  | nil => intro seen c h; simpa [mcopGo] using h
  | cons q rest ih =>
    intro seen c h
    simp only [mcopGo]
    apply ih
    split
    · exact h
    · split
      · exact make_diameter_rsq_nonneg _ _
      · exact _make_circle_two_points_rsq_nonneg _ _ _

theorem _make_circle_one_point_rsq_nonneg (points : List Point) (p : Point) :
    0 ≤ (_make_circle_one_point points p).rsq :=
  mcopGo_rsq_nonneg p points [] ⟨p.1, p.2, 0⟩ le_rfl

theorem mcGo_rsq_nonneg (rest : List Point) :
    ∀ (seen : List Point) (c : Option Circle),
      (∀ cc, c = some cc → 0 ≤ cc.rsq) →
      ∀ cc, mcGo seen rest c = some cc → 0 ≤ cc.rsq := by
  induction rest with
  | nil =>
    intro seen c h cc hc
    exact h cc (by simpa [mcGo] using hc)
  | cons p rest ih =>
    intro seen c h
    simp only [mcGo]
    apply ih
    split
    · exact fun cc hcc => by
        injection hcc with h'
        exact h' ▸ _make_circle_one_point_rsq_nonneg _ _
    · exact h

/-- C8: every circle value constructed by the core — by `make_diameter`, by
`make_circumcircle`, by the two solvers, or by `make_circle` — has a
non-negative (squared) radius; no operation ever produces a circle of
negative radius. -/
theorem radius_never_negative :
    (∀ p0 p1 : Point, 0 ≤ (make_diameter p0 p1).rsq) ∧
    (∀ p0 p1 p2 : Point, ∀ c : Circle, make_circumcircle p0 p1 p2 = some c → 0 ≤ c.rsq) ∧
    (∀ (points : List Point) (p q : Point), 0 ≤ (_make_circle_two_points points p q).rsq) ∧
    (∀ (points : List Point) (p : Point), 0 ≤ (_make_circle_one_point points p).rsq) ∧
    (∀ (points : List Point) (c : Circle), make_circle points = some c → 0 ≤ c.rsq) :=
  ⟨make_diameter_rsq_nonneg, make_circumcircle_rsq_nonneg,
   _make_circle_two_points_rsq_nonneg, _make_circle_one_point_rsq_nonneg,
   fun points c h => mcGo_rsq_nonneg points [] none (by simp) c h⟩

/-- Closed instance of `radius_never_negative` at concrete inputs, with the
`some`-result hypotheses discharged by computation. -/
theorem radius_never_negative_witness :
    0 ≤ (make_diameter (0, 0) (4, 0)).rsq ∧
    0 ≤ (Circle.mk 2 (5/6) (169/36)).rsq ∧
    0 ≤ (_make_circle_two_points [(0, 0)] (0, 0) (4, 0)).rsq ∧
    0 ≤ (_make_circle_one_point [(0, 0)] (0, 0)).rsq ∧
    0 ≤ (Circle.mk 2 0 4).rsq :=
  ⟨radius_never_negative.1 (0, 0) (4, 0),
   radius_never_negative.2.1 (0, 0) (4, 0) (2, 3) (Circle.mk 2 (5/6) (169/36))
     (by with_unfolding_all decide),
   radius_never_negative.2.2.1 [(0, 0)] (0, 0) (4, 0),
   radius_never_negative.2.2.2.1 [(0, 0)] (0, 0),
   radius_never_negative.2.2.2.2 [(0, 0), (4, 0)] (Circle.mk 2 0 4)
     (by with_unfolding_all decide)⟩

theorem cdiv_ok (a b : ℚ) (hb : b ≠ 0) : cdiv a b = Except.ok (a / b) := by
  simp [cdiv, hb]

theorem ok_bind {α β : Type} (a : α) (f : α → Except Unit β) :
    (Except.ok a >>= f) = f a := rfl

theorem radius_le_radius_iff (c d : Circle) (hd : 0 ≤ d.rsq) :
    c.radius ≤ d.radius ↔ c.rsq ≤ d.rsq := by
  unfold Circle.radius
  rw [Real.sqrt_le_sqrt_iff (by exact_mod_cast hd)]
  exact ⟨fun h => by exact_mod_cast h, fun h => by exact_mod_cast h⟩

/-- C3: after the scan of `_make_circle_two_points`, the result is selected
as follows: if both a left-side and a right-side circle were retained, the
one of smaller radius is returned; if only one side retained a circle, that
circle is returned; if neither did, the diameter circle of `p` and `q` is
returned. -/
theorem two_points_selection (points : List Point) (p q : Point) :
    _make_circle_two_points points p q =
      match points.foldl (mctpStep p q (make_diameter p q)) (none, none) with
      | (none, none) => make_diameter p q
      | (some l, none) => l
      | (none, some r) => r
      | (some l, some r) => if l.radius ≤ r.radius then l else r := by
  obtain ⟨h1, h2⟩ := mctpAcc_rsq_nonneg p q (make_diameter p q) points (none, none)
    (by simp) (by simp)
  unfold _make_circle_two_points
  rcases hacc : points.foldl (mctpStep p q (make_diameter p q)) (none, none) with ⟨_ | l, _ | r⟩ <;>
      simp only [hacc]
  · have hr : 0 ≤ r.rsq := h2 r (by rw [hacc])
    exact (if_congr (radius_le_radius_iff l r hr) rfl rfl).symm

/-- C4: `make_circumcircle` returns the degenerate "no circle" value exactly
when the determinant computed from the translated points is zero; in that
case the checked evaluation still succeeds with the degenerate value (the
division by the determinant is never attempted); otherwise the returned
radius equals the largest of the three distances from the computed center to
the input points. -/
theorem make_circumcircle_spec (p0 p1 p2 : Point) :
    (make_circumcircle p0 p1 p2 = none ↔ circumDet p0 p1 p2 = 0) ∧
    (circumDet p0 p1 p2 = 0 → make_circumcircleC p0 p1 p2 = Except.ok none) ∧
    (∀ c : Circle, make_circumcircle p0 p1 p2 = some c →
      c.radius = max (max (hypot (c.x - p0.1) (c.y - p0.2)) (hypot (c.x - p1.1) (c.y - p1.2)))
        (hypot (c.x - p2.1) (c.y - p2.2))) := by
  refine ⟨?_, ?_, ?_⟩
  · simp only [make_circumcircle, circumDet]
    split
    · exact iff_of_true rfl (by assumption)
    · exact iff_of_false (by simp) (by assumption)
  · intro h
    simp only [circumDet] at h
    simp only [make_circumcircleC, cdiv_ok _ 2 (by norm_num), ok_bind]
    rw [if_pos h]
    rfl
  · intro c h
    simp only [make_circumcircle] at h
    split at h
    · exact Option.noConfusion h
    · injection h with h
      subst h
      have hmono : Monotone Real.sqrt := fun a b hab => Real.sqrt_le_sqrt hab
      simp only [Circle.radius, hypot]
      rw [show ∀ a b c : ℚ, ((max (max a b) c : ℚ) : ℝ) = max (max (a : ℝ) (b : ℝ)) (c : ℝ) by
        intro a b c; push_cast; rfl]
      rw [hmono.map_max, hmono.map_max]

/-- Closed instance of `make_circumcircle_spec` at concrete inputs: the
collinear triple (0,0),(1,0),(2,0) yields a checked degenerate result, and
for the triple (0,0),(4,0),(2,3) the returned radius is the largest
center-to-vertex distance. -/
theorem make_circumcircle_spec_witness :
    make_circumcircleC (0, 0) (1, 0) (2, 0) = Except.ok none ∧
    (Circle.mk 2 (5/6) (169/36)).radius =
      max (max (hypot (2 - 0) (5/6 - 0)) (hypot (2 - 4) (5/6 - 0))) (hypot (2 - 2) (5/6 - 3)) :=
  ⟨(make_circumcircle_spec (0, 0) (1, 0) (2, 0)).2.1 (by with_unfolding_all decide),
   (make_circumcircle_spec (0, 0) (4, 0) (2, 3)).2.2 (Circle.mk 2 (5/6) (169/36))
     (by with_unfolding_all decide)⟩

theorem map_some_ok {α : Type} (a : α) :
    Except.map some (Except.ok a : Except Unit α) = Except.ok (some a) := rfl

theorem make_diameterC_eq (p0 p1 : Point) :
    make_diameterC p0 p1 = Except.ok (make_diameter p0 p1) := by
  simp only [make_diameterC, cdiv_ok _ 2 (by norm_num), ok_bind, make_diameter]
  rfl

theorem make_circumcircleC_eq (p0 p1 p2 : Point) :
    make_circumcircleC p0 p1 p2 = Except.ok (make_circumcircle p0 p1 p2) := by
  simp only [make_circumcircleC, cdiv_ok _ 2 (by norm_num), ok_bind, make_circumcircle]
  split
  · rfl
  · rename_i hd
    simp only [cdiv_ok _ _ hd, ok_bind]
    rfl

theorem mctpStepC_eq (p q : Point) (circ : Circle) (acc : Option Circle × Option Circle)
    (r : Point) : mctpStepC p q circ acc r = Except.ok (mctpStep p q circ acc r) := by
  simp only [mctpStepC, mctpStep, make_circumcircleC_eq, ok_bind]
  split
  · rfl
  · split
    · rfl
    · split
      · rfl
      · split <;> rfl

theorem foldlM_except_ok {α β : Type} (f : β → α → β) (fC : β → α → Except Unit β)
    (hf : ∀ b a, fC b a = Except.ok (f b a)) :
    ∀ (l : List α) (b : β), l.foldlM fC b = Except.ok (l.foldl f b) := by
  intro l
  induction l with
  | nil => intro b; rfl
  | cons a l ih =>
    intro b
    rw [List.foldlM_cons, hf, ok_bind, ih, List.foldl_cons]

theorem _make_circle_two_pointsC_eq (points : List Point) (p q : Point) :
    _make_circle_two_pointsC points p q = Except.ok (_make_circle_two_points points p q) := by
  simp only [_make_circle_two_pointsC, make_diameterC_eq, ok_bind,
    foldlM_except_ok (mctpStep p q (make_diameter p q)) (mctpStepC p q (make_diameter p q))
      (fun b a => mctpStepC_eq p q (make_diameter p q) b a),
    _make_circle_two_points]
  rcases points.foldl (mctpStep p q (make_diameter p q)) (none, none) with ⟨_ | l, _ | r⟩ <;> rfl

theorem mcopGoC_eq (p : Point) (rest : List Point) :
    ∀ (seen : List Point) (c : Circle),
      mcopGoC p seen rest c = Except.ok (mcopGo p seen rest c) := by
  induction rest with
  | nil => intro seen c; rfl
  | cons q rest ih =>
    intro seen c
    simp only [mcopGoC, mcopGo]
    split
    · rw [pure_bind]
      exact ih _ _
    · split
      · rw [make_diameterC_eq, ok_bind]
        exact ih _ _
      · rw [_make_circle_two_pointsC_eq, ok_bind]
        exact ih _ _

theorem _make_circle_one_pointC_eq (points : List Point) (p : Point) :
    _make_circle_one_pointC points p = Except.ok (_make_circle_one_point points p) :=
  mcopGoC_eq p points [] ⟨p.1, p.2, 0⟩

theorem mcGoC_eq (rest : List Point) :
    ∀ (seen : List Point) (c : Option Circle),
      mcGoC seen rest c = Except.ok (mcGo seen rest c) := by
  induction rest with
  | nil => intro seen c; rfl
  | cons p rest ih =>
    intro seen c
    simp only [mcGoC, mcGo]
    split
    · rw [_make_circle_one_pointC_eq, map_some_ok, ok_bind]
      exact ih _ _
    · rw [pure_bind]
      exact ih _ _

/-- C9: the whole core is total and failure-free over every finite input:
re-running each function in a checked monad in which every division fails on
a zero divisor always succeeds with the plain result, so the only division
by a computed quantity (by the determinant in `make_circumcircle`) is
guarded by the zero-determinant check and every edge case is delivered
through the return type. -/
theorem core_total_no_failure (points : List Point) (p q r : Point) :
    make_circleC points = Except.ok (make_circle points) ∧
    _make_circle_one_pointC points p = Except.ok (_make_circle_one_point points p) ∧
    _make_circle_two_pointsC points p q = Except.ok (_make_circle_two_points points p q) ∧
    make_circumcircleC p q r = Except.ok (make_circumcircle p q r) ∧
    make_diameterC p q = Except.ok (make_diameter p q) :=
  ⟨mcGoC_eq points [] none, _make_circle_one_pointC_eq points p,
   _make_circle_two_pointsC_eq points p q, make_circumcircleC_eq p q r,
   make_diameterC_eq p q⟩

/-- C7: `make_circle` returns the explicit "no circle" value `None` if and
only if the input sequence is empty (a normal result of the total function,
not an error). -/
theorem make_circle_eq_none_iff (points : List Point) :
    make_circle points = none ↔ points = [] := by
  cases points with
  | nil => simp [make_circle, mcGo]
  | cons p rest =>
    constructor
    · intro h
      exfalso
      have : mcGo [p] rest (some (_make_circle_one_point [p] p)) = none := by
        simpa [make_circle, mcGo] using h
      exact mcGo_some_ne_none rest [p] _ this
    · intro h; cases h

/-! Algebraic facts about the circumcircle primitive. -/

theorem make_circumcircle_closed (p0 p1 p2 : Point) :
    make_circumcircle p0 p1 p2 = if circumDet p0 p1 p2 = 0 then none
      else some ⟨circumXc p0 p1 p2, circumYc p0 p1 p2, circumRsqc p0 p1 p2⟩ := rfl

theorem circumDet_eq_cross (p0 p1 p2 : Point) :
    circumDet p0 p1 p2 = 2 * _cross_product p0.1 p0.2 p1.1 p1.2 p2.1 p2.2 := by
  simp only [circumDet, _cross_product]
  ring

theorem cross_rev (a b c : Point) :
    _cross_product c.1 c.2 b.1 b.2 a.1 a.2 = -_cross_product a.1 a.2 b.1 b.2 c.1 c.2 := by
  simp only [_cross_product]
  ring

set_option maxHeartbeats 2000000 in
theorem circum_formula_equidist (a1 a2 b1 b2 c1 c2 x y : ℚ)
    (hd : (a1 * (b2 - c2) + b1 * (c2 - a2) + c1 * (a2 - b2)) * 2 ≠ 0)
    (hx : x = ((a1 * a1 + a2 * a2) * (b2 - c2) + (b1 * b1 + b2 * b2) * (c2 - a2)
        + (c1 * c1 + c2 * c2) * (a2 - b2))
        / ((a1 * (b2 - c2) + b1 * (c2 - a2) + c1 * (a2 - b2)) * 2))
    (hy : y = ((a1 * a1 + a2 * a2) * (c1 - b1) + (b1 * b1 + b2 * b2) * (a1 - c1)
        + (c1 * c1 + c2 * c2) * (b1 - a1))
        / ((a1 * (b2 - c2) + b1 * (c2 - a2) + c1 * (a2 - b2)) * 2)) :
    (x - b1) * (x - b1) + (y - b2) * (y - b2) = (x - a1) * (x - a1) + (y - a2) * (y - a2) ∧
    (x - c1) * (x - c1) + (y - c2) * (y - c2) = (x - a1) * (x - a1) + (y - a2) * (y - a2) := by
  subst hx hy
  constructor <;> (field_simp; ring)

set_option maxHeartbeats 2000000 in
theorem circum_equidist (p0 p1 p2 : Point) (h : circumDet p0 p1 p2 ≠ 0) :
    hypotSq (circumXc p0 p1 p2 - p1.1) (circumYc p0 p1 p2 - p1.2)
      = hypotSq (circumXc p0 p1 p2 - p0.1) (circumYc p0 p1 p2 - p0.2) ∧
    hypotSq (circumXc p0 p1 p2 - p2.1) (circumYc p0 p1 p2 - p2.2)
      = hypotSq (circumXc p0 p1 p2 - p0.1) (circumYc p0 p1 p2 - p0.2) := by
  simp only [circumDet] at h
  obtain ⟨k1, k2⟩ := circum_formula_equidist
    (p0.1 - (min (min p0.1 p1.1) p2.1 + max (max p0.1 p1.1) p2.1) / 2)
    (p0.2 - (min (min p0.2 p1.2) p2.2 + max (max p0.2 p1.2) p2.2) / 2)
    (p1.1 - (min (min p0.1 p1.1) p2.1 + max (max p0.1 p1.1) p2.1) / 2)
    (p1.2 - (min (min p0.2 p1.2) p2.2 + max (max p0.2 p1.2) p2.2) / 2)
    (p2.1 - (min (min p0.1 p1.1) p2.1 + max (max p0.1 p1.1) p2.1) / 2)
    (p2.2 - (min (min p0.2 p1.2) p2.2 + max (max p0.2 p1.2) p2.2) / 2)
    _ _ h rfl rfl
  constructor
  · simp only [circumXc, circumYc, hypotSq]
    linear_combination k1
  · simp only [circumXc, circumYc, hypotSq]
    linear_combination k2

theorem hypotSq_sub_comm (a b c d : ℚ) : hypotSq (a - b) (c - d) = hypotSq (b - a) (d - c) := by
  unfold hypotSq; ring

theorem circumRsqc_eq (p0 p1 p2 : Point) (h : circumDet p0 p1 p2 ≠ 0) :
    circumRsqc p0 p1 p2 = hypotSq (circumXc p0 p1 p2 - p0.1) (circumYc p0 p1 p2 - p0.2) := by
  obtain ⟨k1, k2⟩ := circum_equidist p0 p1 p2 h
  simp only [circumRsqc, k1, k2, max_self]

theorem circum_mem (p0 p1 p2 : Point) (h : circumDet p0 p1 p2 ≠ 0) :
    is_in_circle (some ⟨circumXc p0 p1 p2, circumYc p0 p1 p2, circumRsqc p0 p1 p2⟩) p0 = true ∧
    is_in_circle (some ⟨circumXc p0 p1 p2, circumYc p0 p1 p2, circumRsqc p0 p1 p2⟩) p1 = true ∧
    is_in_circle (some ⟨circumXc p0 p1 p2, circumYc p0 p1 p2, circumRsqc p0 p1 p2⟩) p2 = true := by
  obtain ⟨k1, k2⟩ := circum_equidist p0 p1 p2 h
  refine ⟨is_in_circle_of_dist_eq_rsq _ _ ?_, is_in_circle_of_dist_eq_rsq _ _ ?_,
    is_in_circle_of_dist_eq_rsq _ _ ?_⟩
  · rw [hypotSq_sub_comm, circumRsqc_eq p0 p1 p2 h]
  · rw [hypotSq_sub_comm, circumRsqc_eq p0 p1 p2 h, ← k1]
  · rw [hypotSq_sub_comm, circumRsqc_eq p0 p1 p2 h, ← k2]

theorem min3_rev (a b c : ℚ) : min (min c b) a = min (min a b) c := by
  rw [min_comm (min c b) a, min_comm c b, ← min_assoc]

theorem max3_rev (a b c : ℚ) : max (max c b) a = max (max a b) c := by
  rw [max_comm (max c b) a, max_comm c b, ← max_assoc]

theorem circum_formula_rev_x (a1 a2 b1 b2 c1 c2 : ℚ)
    (hd : (a1 * (b2 - c2) + b1 * (c2 - a2) + c1 * (a2 - b2)) * 2 ≠ 0) :
    ((c1 * c1 + c2 * c2) * (b2 - a2) + (b1 * b1 + b2 * b2) * (a2 - c2)
        + (a1 * a1 + a2 * a2) * (c2 - b2))
      / ((c1 * (b2 - a2) + b1 * (a2 - c2) + a1 * (c2 - b2)) * 2)
    = ((a1 * a1 + a2 * a2) * (b2 - c2) + (b1 * b1 + b2 * b2) * (c2 - a2)
        + (c1 * c1 + c2 * c2) * (a2 - b2))
      / ((a1 * (b2 - c2) + b1 * (c2 - a2) + c1 * (a2 - b2)) * 2) := by
  have hd' : (c1 * (b2 - a2) + b1 * (a2 - c2) + a1 * (c2 - b2)) * 2 ≠ 0 := by
    have hneg : (c1 * (b2 - a2) + b1 * (a2 - c2) + a1 * (c2 - b2)) * 2
        = -((a1 * (b2 - c2) + b1 * (c2 - a2) + c1 * (a2 - b2)) * 2) := by ring
    rw [hneg]
    exact neg_ne_zero.mpr hd
  rw [div_eq_div_iff hd' hd]
  ring

theorem circum_formula_rev_y (a1 a2 b1 b2 c1 c2 : ℚ)
    (hd : (a1 * (b2 - c2) + b1 * (c2 - a2) + c1 * (a2 - b2)) * 2 ≠ 0) :
    ((c1 * c1 + c2 * c2) * (a1 - b1) + (b1 * b1 + b2 * b2) * (c1 - a1)
        + (a1 * a1 + a2 * a2) * (b1 - c1))
      / ((c1 * (b2 - a2) + b1 * (a2 - c2) + a1 * (c2 - b2)) * 2)
    = ((a1 * a1 + a2 * a2) * (c1 - b1) + (b1 * b1 + b2 * b2) * (a1 - c1)
        + (c1 * c1 + c2 * c2) * (b1 - a1))
      / ((a1 * (b2 - c2) + b1 * (c2 - a2) + c1 * (a2 - b2)) * 2) := by
  have hd' : (c1 * (b2 - a2) + b1 * (a2 - c2) + a1 * (c2 - b2)) * 2 ≠ 0 := by
    have hneg : (c1 * (b2 - a2) + b1 * (a2 - c2) + a1 * (c2 - b2)) * 2
        = -((a1 * (b2 - c2) + b1 * (c2 - a2) + c1 * (a2 - b2)) * 2) := by ring
    rw [hneg]
    exact neg_ne_zero.mpr hd
  rw [div_eq_div_iff hd' hd]
  ring

theorem circumXc_rev (p0 p1 p2 : Point) (h : circumDet p0 p1 p2 ≠ 0) :
    circumXc p2 p1 p0 = circumXc p0 p1 p2 := by
  have hz := h
  simp only [circumDet] at hz
  simp only [circumXc]
  rw [show (min (min p2.1 p1.1) p0.1 + max (max p2.1 p1.1) p0.1) / 2
      = (min (min p0.1 p1.1) p2.1 + max (max p0.1 p1.1) p2.1) / 2 from by rw [min3_rev, max3_rev]]
  rw [show (min (min p2.2 p1.2) p0.2 + max (max p2.2 p1.2) p0.2) / 2
      = (min (min p0.2 p1.2) p2.2 + max (max p0.2 p1.2) p2.2) / 2 from by rw [min3_rev, max3_rev]]
  congr 1
  exact circum_formula_rev_x _ _ _ _ _ _ hz

theorem circumYc_rev (p0 p1 p2 : Point) (h : circumDet p0 p1 p2 ≠ 0) :
    circumYc p2 p1 p0 = circumYc p0 p1 p2 := by
  have hz := h
  simp only [circumDet] at hz
  simp only [circumYc]
  rw [show (min (min p2.1 p1.1) p0.1 + max (max p2.1 p1.1) p0.1) / 2
      = (min (min p0.1 p1.1) p2.1 + max (max p0.1 p1.1) p2.1) / 2 from by rw [min3_rev, max3_rev]]
  rw [show (min (min p2.2 p1.2) p0.2 + max (max p2.2 p1.2) p0.2) / 2
      = (min (min p0.2 p1.2) p2.2 + max (max p0.2 p1.2) p2.2) / 2 from by rw [min3_rev, max3_rev]]
  congr 1
  exact circum_formula_rev_y _ _ _ _ _ _ hz

theorem make_circumcircle_rev (p0 p1 p2 : Point) :
    make_circumcircle p2 p1 p0 = make_circumcircle p0 p1 p2 := by
  have hdet : circumDet p2 p1 p0 = -circumDet p0 p1 p2 := by
    rw [circumDet_eq_cross, circumDet_eq_cross, cross_rev p0 p1 p2]
    ring
  rw [make_circumcircle_closed, make_circumcircle_closed]
  by_cases h : circumDet p0 p1 p2 = 0
  · rw [if_pos h, if_pos (by rw [hdet, h, neg_zero])]
  · rw [if_neg h, if_neg (by rw [hdet]; exact neg_ne_zero.mpr h)]
    have hX := circumXc_rev p0 p1 p2 h
    have hY := circumYc_rev p0 p1 p2 h
    have hR : circumRsqc p2 p1 p0 = circumRsqc p0 p1 p2 := by
      simp only [circumRsqc, hX, hY]
      exact max3_rev _ _ _
    rw [hX, hY, hR]

/-! Execution traces of `make_circle` on inputs of one, two and three
points. -/

theorem Circle_ext (a b : Circle) (hx : a.x = b.x) (hy : a.y = b.y)
    (hr : a.rsq = b.rsq) : a = b := by
  cases a; cases b
  simp only [Circle.mk.injEq]
  exact ⟨hx, hy, hr⟩

theorem is_in_zero_circle (a b : Point) :
    is_in_circle (some ⟨a.1, a.2, 0⟩) b = true ↔ b = a := by
  rw [is_in_circle_some]
  constructor
  · intro h
    rw [show (0 : ℚ) * _MULTIPLICATIVE_EPSILON_SQ = 0 from zero_mul _] at h
    have h0 := hypotSq_nonneg (b.1 - a.1) (b.2 - a.2)
    have hz := le_antisymm h h0
    rw [hypotSq_eq_zero_iff] at hz
    exact Prod.ext (sub_eq_zero.mp hz.1) (sub_eq_zero.mp hz.2)
  · rintro rfl
    rw [show hypotSq (b.1 - b.1) (b.2 - b.2) = 0 from by unfold hypotSq; ring]
    rw [show (0 : ℚ) * _MULTIPLICATIVE_EPSILON_SQ = 0 from zero_mul _]

theorem is_in_zero_circle_false (a b : Point) (h : b ≠ a) :
    is_in_circle (some ⟨a.1, a.2, 0⟩) b = false :=
  Bool.eq_false_iff.mpr fun hh => h ((is_in_zero_circle a b).mp hh)

theorem make_diameter_self (p : Point) : make_diameter p p = ⟨p.1, p.2, 0⟩ := by
  refine Circle_ext _ _ ?_ ?_ ?_
  · show (p.1 + p.1) / 2 = p.1; ring
  · show (p.2 + p.2) / 2 = p.2; ring
  · rw [make_diameter_rsq]
    unfold hypotSq
    ring

theorem make_diameter_rsq_eq_zero_iff (p q : Point) :
    (make_diameter p q).rsq = 0 ↔ p = q := by
  rw [make_diameter_rsq, hypotSq_eq_zero_iff]
  constructor
  · rintro ⟨h1, h2⟩
    rcases div_eq_zero_iff.mp h1 with h1' | h1'
    · rcases div_eq_zero_iff.mp h2 with h2' | h2'
      · exact Prod.ext (sub_eq_zero.mp h1') (sub_eq_zero.mp h2')
      · exact absurd h2' (by norm_num)
    · exact absurd h1' (by norm_num)
  · rintro rfl
    constructor <;> rw [sub_self, zero_div]

theorem cross_ne_imp_ne₁₂ (a b c : Point)
    (h : _cross_product a.1 a.2 b.1 b.2 c.1 c.2 ≠ 0) : a ≠ b := by
  rintro rfl
  exact h (by unfold _cross_product; ring)

theorem cross_ne_imp_ne₂₃ (a b c : Point)
    (h : _cross_product a.1 a.2 b.1 b.2 c.1 c.2 ≠ 0) : b ≠ c := by
  rintro rfl
  exact h (by unfold _cross_product; ring)

theorem cross_ne_imp_ne₁₃ (a b c : Point)
    (h : _cross_product a.1 a.2 b.1 b.2 c.1 c.2 ≠ 0) : a ≠ c := by
  rintro rfl
  exact h (by unfold _cross_product; ring)

theorem mcop_self (p : Point) : _make_circle_one_point [p] p = ⟨p.1, p.2, 0⟩ := by
  simp only [_make_circle_one_point, mcopGo, (is_in_zero_circle p p).mpr rfl, if_true]

theorem make_circle_single (p : Point) : make_circle [p] = some ⟨p.1, p.2, 0⟩ := by
  simp only [make_circle, mcGo, List.nil_append, Option.isNone_none, Bool.true_or, if_true,
    mcop_self]

theorem mcop_pair (p q : Point) (hne : p ≠ q) :
    _make_circle_one_point [p, q] q = make_diameter q p := by
  have h1 : is_in_circle (some ⟨q.1, q.2, 0⟩) p = false :=
    is_in_zero_circle_false q p hne
  simp only [_make_circle_one_point, mcopGo, List.nil_append, h1, Bool.false_eq_true, if_false,
    make_diameter_mem_left, if_true]

theorem make_circle_pair (p q : Point) : make_circle [p, q] = some (make_diameter p q) := by
  by_cases hpq : p = q
  · subst hpq
    rw [show make_diameter p p = ⟨p.1, p.2, 0⟩ from make_diameter_self p]
    simp only [make_circle, mcGo, List.nil_append, Option.isNone_none, Bool.true_or, if_true,
      mcop_self, Option.isNone_some, Bool.false_or, (is_in_zero_circle p p).mpr rfl,
      Bool.not_true, Bool.false_eq_true, if_false]
  · have h1 : is_in_circle (some ⟨p.1, p.2, 0⟩) q = false :=
      is_in_zero_circle_false p q (Ne.symm hpq)
    rw [make_diameter_comm]
    simp only [make_circle, mcGo, List.nil_append, Option.isNone_none, Bool.true_or, if_true,
      mcop_self, Option.isNone_some, Bool.false_or, h1, Bool.not_false, if_true,
      List.singleton_append, mcop_pair p q hpq]

theorem mctpStep_skip (p q : Point) (circ : Circle) (acc : Option Circle × Option Circle)
    (r : Point) (hin : is_in_circle (some circ) r = true) :
    mctpStep p q circ acc r = acc := by
  unfold mctpStep
  rw [hin, if_pos rfl]

theorem mctpStep_none_none (p q : Point) (circ : Circle) (r : Point) (cc : Circle)
    (hin : is_in_circle (some circ) r = false)
    (hcc : make_circumcircle p q r = some cc) :
    mctpStep p q circ (none, none) r =
      if _cross_product p.1 p.2 q.1 q.2 r.1 r.2 > 0 then (some cc, none)
      else if _cross_product p.1 p.2 q.1 q.2 r.1 r.2 < 0 then (none, some cc)
      else (none, none) := by
  unfold mctpStep
  rw [hin]
  simp only [Bool.false_eq_true, if_false, hcc, Bool.and_true, decide_eq_true_eq]

theorem circumDet_cba_ne_zero (a b c : Point)
    (h : _cross_product a.1 a.2 b.1 b.2 c.1 c.2 ≠ 0) : circumDet c b a ≠ 0 := by
  rw [circumDet_eq_cross, cross_rev a b c]
  exact mul_ne_zero two_ne_zero (neg_ne_zero.mpr h)

theorem mctp_pair_circum (a b c : Point)
    (hcross : _cross_product a.1 a.2 b.1 b.2 c.1 c.2 ≠ 0)
    (hbc_a : is_in_circle (some (make_diameter b c)) a = false) :
    _make_circle_two_points [a, b] c b
      = ⟨circumXc c b a, circumYc c b a, circumRsqc c b a⟩ := by
  have hdet : circumDet c b a ≠ 0 := circumDet_cba_ne_zero a b c hcross
  have hcc : make_circumcircle c b a
      = some ⟨circumXc c b a, circumYc c b a, circumRsqc c b a⟩ := by
    rw [make_circumcircle_closed, if_neg hdet]
  have hdiam : is_in_circle (some (make_diameter c b)) a = false := by
    rw [make_diameter_comm]; exact hbc_a
  have hmemb : is_in_circle (some (make_diameter c b)) b = true := make_diameter_mem_right c b
  have hrev : _cross_product c.1 c.2 b.1 b.2 a.1 a.2
      = -_cross_product a.1 a.2 b.1 b.2 c.1 c.2 := cross_rev a b c
  simp only [_make_circle_two_points]
  rw [List.foldl_cons, List.foldl_cons, List.foldl_nil,
    mctpStep_none_none c b (make_diameter c b) a _ hdiam hcc]
  rcases lt_trichotomy (_cross_product a.1 a.2 b.1 b.2 c.1 c.2) 0 with hX | hX | hX
  · rw [if_pos (by rw [hrev]; exact neg_pos.mpr hX),
      mctpStep_skip c b (make_diameter c b) _ b hmemb]
  · exact absurd hX hcross
  · rw [if_neg (by rw [hrev]; exact not_lt.mpr (le_of_lt (neg_neg_of_pos hX)))]
    rw [if_pos (by rw [hrev]; exact neg_neg_of_pos hX)]
    rw [mctpStep_skip c b (make_diameter c b) _ b hmemb]

theorem mcop_triple (a b c : Point)
    (hcross : _cross_product a.1 a.2 b.1 b.2 c.1 c.2 ≠ 0)
    (hbc_a : is_in_circle (some (make_diameter b c)) a = false)
    (hac_b : is_in_circle (some (make_diameter a c)) b = false) :
    _make_circle_one_point [a, b, c] c
      = ⟨circumXc c b a, circumYc c b a, circumRsqc c b a⟩ := by
  have hac : a ≠ c := cross_ne_imp_ne₁₃ a b c hcross
  have hdet : circumDet c b a ≠ 0 := circumDet_cba_ne_zero a b c hcross
  have h1 : is_in_circle (some ⟨c.1, c.2, 0⟩) a = false :=
    is_in_zero_circle_false c a hac
  have h2 : is_in_circle (some (make_diameter c a)) b = false := by
    rw [make_diameter_comm]; exact hac_b
  have h3 : ¬((make_diameter c a).rsq = 0) := fun hh =>
    hac (((make_diameter_rsq_eq_zero_iff c a).mp hh).symm)
  have hmem : is_in_circle
      (some ⟨circumXc c b a, circumYc c b a, circumRsqc c b a⟩) c = true :=
    (circum_mem c b a hdet).1
  simp only [_make_circle_one_point, mcopGo, List.nil_append, List.singleton_append, h1,
    Bool.false_eq_true, if_false, if_pos rfl, h2, if_neg h3, hmem, if_true,
    mctp_pair_circum a b c hcross hbc_a]

/-- C2: a one-element input yields the radius-0 circle at that point; a
two-element input yields the diameter circle of the pair; a non-collinear
three-element input yields the circumcircle of the three points whenever no
two-point (diameter) circle of a pair already encloses the remaining
point. -/
theorem small_point_sets :
    (∀ p : Point, make_circle [p] = some ⟨p.1, p.2, 0⟩) ∧
    (∀ p q : Point, make_circle [p, q] = some (make_diameter p q)) ∧
    (∀ a b c : Point, _cross_product a.1 a.2 b.1 b.2 c.1 c.2 ≠ 0 →
      is_in_circle (some (make_diameter a b)) c = false →
      is_in_circle (some (make_diameter b c)) a = false →
      is_in_circle (some (make_diameter a c)) b = false →
      make_circle [a, b, c] = make_circumcircle a b c) := by
  refine ⟨make_circle_single, make_circle_pair, ?_⟩
  intro a b c hcross hab_c hbc_a hac_b
  have hab : a ≠ b := cross_ne_imp_ne₁₂ a b c hcross
  have hdet : circumDet c b a ≠ 0 := circumDet_cba_ne_zero a b c hcross
  have h1 : is_in_circle (some ⟨a.1, a.2, 0⟩) b = false :=
    is_in_zero_circle_false a b (Ne.symm hab)
  have h2 : is_in_circle (some (make_diameter b a)) c = false := by
    rw [make_diameter_comm]; exact hab_c
  have hrhs : make_circumcircle a b c
      = some ⟨circumXc c b a, circumYc c b a, circumRsqc c b a⟩ := by
    rw [make_circumcircle_rev c b a, make_circumcircle_closed, if_neg hdet]
  rw [hrhs]
  simp only [make_circle, mcGo, List.nil_append, Option.isNone_none, Bool.true_or, if_true,
    mcop_self, Option.isNone_some, Bool.false_or, h1, Bool.not_false, List.singleton_append,
    mcop_pair a b hab, h2, List.cons_append, List.nil_append,
    mcop_triple a b c hcross hbc_a hac_b]

/-- Closed instances of `small_point_sets`: the spec's worked examples
(5,5); (0,0),(4,0); and the acute triangle (0,0),(4,0),(2,3), with the
hypotheses of the three-point case discharged by computation. -/
theorem small_point_sets_witness :
    make_circle [((5 : ℚ), (5 : ℚ))] = some ⟨5, 5, 0⟩ ∧
    make_circle [((0 : ℚ), (0 : ℚ)), ((4 : ℚ), (0 : ℚ))]
      = some (make_diameter (0, 0) (4, 0)) ∧
    make_circle [((0 : ℚ), (0 : ℚ)), ((4 : ℚ), (0 : ℚ)), ((2 : ℚ), (3 : ℚ))]
      = make_circumcircle (0, 0) (4, 0) (2, 3) :=
  ⟨small_point_sets.1 (5, 5), small_point_sets.2.1 (0, 0) (4, 0),
   small_point_sets.2.2 (0, 0) (4, 0) (2, 3) (by with_unfolding_all decide)
     (by with_unfolding_all decide) (by with_unfolding_all decide)
     (by with_unfolding_all decide)⟩

/-! Permutation (in)dependence of the result. -/

theorem perm_pair_eq {α : Type} (p q : α) (l : List α) (h : List.Perm [p, q] l) :
    l = [p, q] ∨ l = [q, p] := by
  have hlen : l.length = 2 := h.length_eq.symm ▸ rfl
  rcases l with _ | ⟨x, _ | ⟨y, _ | ⟨z, t⟩⟩⟩
  · simp at hlen
  · simp at hlen
  · have hx : x ∈ [p, q] := h.symm.subset (by simp)
    have hx' : x = p ∨ x = q := by simpa using hx
    rcases hx' with h1 | h1
    · rw [h1] at h ⊢
      have h' := List.singleton_perm.mp h.cons_inv
      injection h' with h2
      rw [← h2]
      exact Or.inl rfl
    · rw [h1] at h ⊢
      have hy : y ∈ [p, q] := h.symm.subset (by simp)
      have hy' : y = p ∨ y = q := by simpa using hy
      rcases hy' with h2 | h2
      · rw [h2]
        exact Or.inr rfl
      · rw [h2] at h ⊢
        have hp : p ∈ [q, q] := h.subset (by simp)
        have h3 : p = q := by simpa using hp
        rw [h3]
        exact Or.inl rfl
  · simp at hlen

/-- C6 (amended): for inputs of at most two points the result of
`make_circle` is exactly independent of the order in which the points are
supplied; for larger inputs, order-independence within relative tolerance
1e-9 fails (see the counterexample). -/
theorem make_circle_perm_of_le_two (l l' : List Point) (hp : l.Perm l')
    (hlen : l.length ≤ 2) : make_circle l = make_circle l' := by
  rcases l with _ | ⟨p, _ | ⟨q, _ | ⟨r, t⟩⟩⟩
  · rw [List.perm_nil.mp hp.symm]
  · rw [← List.singleton_perm.mp hp]
  · rcases perm_pair_eq p q l' hp with h | h
    · rw [h]
    · rw [h, make_circle_pair, make_circle_pair, make_diameter_comm]
  · simp at hlen

/-- Closed instance of `make_circle_perm_of_le_two` at a concrete pair. -/
theorem make_circle_perm_of_le_two_witness :
    make_circle [((0 : ℚ), (0 : ℚ)), ((4 : ℚ), (0 : ℚ))]
      = make_circle [((4 : ℚ), (0 : ℚ)), ((0 : ℚ), (0 : ℚ))] :=
  make_circle_perm_of_le_two _ _ (List.Perm.swap _ _ _) (by simp)

set_option maxHeartbeats 4000000 in
/-- C6 counterexample: the concrete point set {(0,0), (2,0), (2, 1.4e-7)},
whose third point lies in the multiplicative-tolerance band of the diameter
circle of the first two, yields — under two different input orders — two
circles whose centers differ by 7e-8, which exceeds 1e-9 times the larger
radius: results of different internal permutations do not agree within
relative tolerance 1e-9. -/
theorem permutation_tolerance_counterexample :
    List.Perm [((2 : ℚ), (7 / 50000000 : ℚ)), ((0 : ℚ), (0 : ℚ)), ((2 : ℚ), (0 : ℚ))]
      [((0 : ℚ), (0 : ℚ)), ((2 : ℚ), (0 : ℚ)), ((2 : ℚ), (7 / 50000000 : ℚ))] ∧
    make_circle [((0 : ℚ), (0 : ℚ)), ((2 : ℚ), (0 : ℚ)), ((2 : ℚ), (7 / 50000000 : ℚ))]
      = some ⟨1, 0, 1⟩ ∧
    make_circle [((2 : ℚ), (7 / 50000000 : ℚ)), ((0 : ℚ), (0 : ℚ)), ((2 : ℚ), (0 : ℚ))]
      = some ⟨1, 7 / 100000000, 10000000000000049 / 10000000000000000⟩ ∧
    hypot (1 - 1) (0 - 7 / 100000000)
      > 1 / 10 ^ 9 * max (Circle.radius ⟨1, 0, 1⟩)
          (Circle.radius ⟨1, 7 / 100000000, 10000000000000049 / 10000000000000000⟩) := by
  refine ⟨?_, ?_, ?_, ?_⟩
  · exact @List.perm_append_comm _ [((2 : ℚ), (7 / 50000000 : ℚ))]
      [((0 : ℚ), (0 : ℚ)), ((2 : ℚ), (0 : ℚ))]
  · norm_num [make_circle, mcGo, _make_circle_one_point, mcopGo, _make_circle_two_points,
      mctpStep, make_diameter, make_circumcircle, is_in_circle, _cross_product, hypotSq,
      _MULTIPLICATIVE_EPSILON_SQ, List.foldl]
  · norm_num [make_circle, mcGo, _make_circle_one_point, mcopGo, _make_circle_two_points,
      mctpStep, make_diameter, make_circumcircle, is_in_circle, _cross_product, hypotSq,
      _MULTIPLICATIVE_EPSILON_SQ, List.foldl]
  · have h1 : hypot (1 - 1) (0 - 7 / 100000000) = 7 / 100000000 := by
      unfold hypot
      rw [show hypotSq (1 - 1) (0 - 7 / 100000000) = (7 / 100000000 : ℚ) ^ 2 from by
        unfold hypotSq; norm_num]
      rw [show (((7 / 100000000 : ℚ) ^ 2 : ℚ) : ℝ) = ((7 / 100000000 : ℝ)) ^ 2 from by
        push_cast; ring]
      exact Real.sqrt_sq (by norm_num)
    have h2 : Circle.radius ⟨1, 0, 1⟩ ≤ 2 := by
      unfold Circle.radius
      rw [Real.sqrt_le_left (by norm_num : (0 : ℝ) ≤ 2)]
      push_cast
      norm_num
    have h3 : Circle.radius ⟨1, 7 / 100000000, 10000000000000049 / 10000000000000000⟩ ≤ 2 := by
      unfold Circle.radius
      rw [Real.sqrt_le_left (by norm_num : (0 : ℝ) ≤ 2)]
      push_cast
      norm_num
    rw [h1]
    calc 1 / 10 ^ 9 * max (Circle.radius ⟨1, 0, 1⟩)
          (Circle.radius ⟨1, 7 / 100000000, 10000000000000049 / 10000000000000000⟩)
        ≤ 1 / 10 ^ 9 * 2 := by
          exact mul_le_mul_of_nonneg_left (max_le h2 h3) (by norm_num)
      _ < 7 / 100000000 := by norm_num

end Momepy
